import Mathlib

/-!
Verification of the LibreCAL coefficient acquisition & addressing engine
(`Software/LibreCAL-GUI/caldevice.cpp`).

The shallow embedding below translates the relevant C++ code into Lean:
 * the `Standard` enumeration and its string codec (`StandardToString` /
   `StandardFromString`),
 * the Touchstone datapoint assembly done by the `createCoefficient` lambda
   inside `CalDevice::updateCoefficientSetsThread` (including the S12/S21
   wire-order swap),
 * the through-pair addressing of `CalDevice::CoefficientSet::getThrough`,
 * the full acquisition run `updateCoefficientSets` /
   `updateCoefficientSetsThread`, modelled as a deterministic state
   transformer over an abstract device oracle, recording the emitted
   progress/completion events, the successive observable states of the
   `coeffSets` collection, and whether a division by zero was performed,
 * `CalDevice::hasModifiedCoefficients`.

Machine integers of the C++ code are modelled as `Int`/`Nat` (with an
explicit `% 2 ^ 64` where the `unsigned long` accumulation of the point
total can wrap); parsed floating point values are modelled as `ℚ` (the
claims under study only concern ordering and scaling of the parsed
values, not rounding).
-/

/-- `CalDevice::Standard` (caldevice.h): closed enumeration of calibration
standards. The enumeration order (`Open = 0 … None = 4`) matters for
`StandardFromString`, which scans it in order. -/
inductive Standard where
  | Open
  | Short
  | Load
  | Through
  | None
deriving DecidableEq

/-- `CalDevice::StandardToString` (caldevice.cpp:33-42). -/
def StandardToString : Standard → String
  | .Open => "OPEN"
  | .Short => "SHORT"
  | .Load => "LOAD"
  | .Through => "THROUGH"
  | .None => "NONE"

/-- Enumeration order `(Standard)0 … (Standard)None` scanned by the loop in
`CalDevice::StandardFromString` (caldevice.cpp:46). -/
def standardScanOrder : List Standard :=
  [.Open, .Short, .Load, .Through, .None]

/-- `CalDevice::StandardFromString` (caldevice.cpp:44-52): return the first
standard in enumeration order whose encoding equals the input, falling back
to `Standard::None`. -/
def StandardFromString (s : String) : Standard :=
  match standardScanOrder.find? (fun st => s == StandardToString st) with
  | some st => st
  | none => .None

/-- One parsed S-parameter sample, `Touchstone::Datapoint`: a frequency and
the flattened list of complex matrix entries (modelled as pairs of
rationals). -/
structure Datapoint where
  frequency : ℚ
  S : List (ℚ × ℚ)
deriving DecidableEq, Inhabited

/-- The in-memory S-parameter trace (`Touchstone`): its declared port count
(`Touchstone(1)` / `Touchstone(2)` in caldevice.cpp:155-157) and the ordered
datapoints accumulated by `AddDatapoint`. -/
structure Touchstone where
  ports : Nat
  points : List Datapoint
deriving DecidableEq, Inhabited

/-- `Touchstone::AddDatapoint`: append one datapoint to the trace. -/
def Touchstone.AddDatapoint (t : Touchstone) (p : Datapoint) : Touchstone :=
  { t with points := t.points ++ [p] }

/-- The inner loop of the `createCoefficient` lambda
(caldevice.cpp:164-168): from the comma-split values of a `:COEFF:GET?`
response, entry `j` of the S list is
`(values[1+j*2], values[2+j*2])` for `j < (values.size()-1)/2`.
Out-of-range accesses default to `0` (a missing field parses as `0.0`). -/
def buildS (values : List ℚ) : List (ℚ × ℚ) :=
  (List.range ((values.length - 1) / 2)).map
    (fun j => (values.getD (1 + j * 2) 0, values.getD (2 + j * 2) 0))

/-- `std::swap(p.S[1], p.S[2])` (caldevice.cpp:172): positions 1 and 2 of
the S list exchanged. -/
def swapS12 (S : List (ℚ × ℚ)) : List (ℚ × ℚ) :=
  (S.set 1 (S.getD 2 (0, 0))).set 2 (S.getD 1 (0, 0))

/-- Datapoint assembly in `createCoefficient` (caldevice.cpp:160-173): the
frequency is `values[0] * 1e9`, the S list is built by `buildS`, and when it
has exactly 4 entries the S21/S12 wire-order correction `swapS12` is
applied. -/
def makeDatapoint (values : List ℚ) : Datapoint :=
  { frequency := values.getD 0 0 * 10 ^ 9,
    S := if (buildS values).length = 4 then swapS12 (buildS values) else buildS values }

/-- `CalDevice::CoefficientSet::Coefficient` (caldevice.h, modelled from the
spec for the parts of the header not present in the sources): an S-parameter
trace plus the `modified` flag, which defaults to `false` and is set only by
editing outside this core. -/
structure Coefficient where
  t : Touchstone
  modified : Bool
deriving DecidableEq, Inhabited

/-- `CalDevice::CoefficientSet`: one named bundle of coefficients for a
device with `ports` ports (`ports` and the port numbers are C++ `int`,
modelled as `Int`). -/
structure CoefficientSet where
  name : String
  ports : Int
  opens : List Coefficient
  shorts : List Coefficient
  loads : List Coefficient
  throughs : List Coefficient
deriving DecidableEq, Inhabited

/-- Result of `CoefficientSet::getThrough` (which returns a raw
`Coefficient*`): `nullptr`, a valid element, or an out-of-range access of
the `throughs` vector (undefined behaviour of `std::vector::operator[]`,
kept explicit in the model). -/
inductive LookupResult where
  | nullptr
  | found (c : Coefficient)
  | outOfRange (index : Int)
deriving DecidableEq

/-- The `while(port1 > 1)` loop of `getThrough` (caldevice.cpp:233-236),
with the iteration count `(port1 - 1).toNat` made explicit: each iteration
adds `ports - port1 + 1` to `index` and decrements `port1`. -/
def getThroughLoop (ports : Int) : Nat → Int → Int → Int
  | 0, _, index => index
  | n + 1, port1, index => getThroughLoop ports n (port1 - 1) (index + (ports - port1 + 1))

/-- The linear index computed by `getThrough` (caldevice.cpp:232-236):
`index = port2 - port1 - 1` followed by the decrementing loop. -/
def addressIndex (ports port1 port2 : Int) : Int :=
  getThroughLoop ports (port1 - 1).toNat port1 (port2 - port1 - 1)

/-- `CalDevice::CoefficientSet::getThrough` (caldevice.cpp:227-238): reject
`port1 > ports`, `port2 > ports` and `port1 >= port2` with `nullptr`
(ports below 1 are not rejected), then read `throughs[index]`. -/
def CoefficientSet.getThrough (cs : CoefficientSet) (port1 port2 : Int) : LookupResult :=
  if port1 > cs.ports ∨ port2 > cs.ports ∨ port1 ≥ port2 then
    .nullptr
  else
    let index := addressIndex cs.ports port1 port2
    if h : 0 ≤ index ∧ index.toNat < cs.throughs.length then
      .found (cs.throughs.get ⟨index.toNat, h.2⟩)
    else
      .outOfRange index

/-- `triSum P a = ∑ k in [1..a], (P - k)`: the number of through slots
occupied by pairs whose smaller port is at most `a`, for a device with `P`
ports. -/
def triSum (P : Nat) : Nat → Nat
  | 0 => 0
  | a + 1 => triSum P a + (P - (a + 1))

/-- The storage index of a valid pair `(a, b)` as a natural number:
position `b - a - 1` inside block `a`, after the `triSum P (a-1)` slots of
the blocks of smaller first ports. -/
def pairIndex (P a b : Nat) : Nat := triSum P (a - 1) + (b - a - 1)

/-- The port loop `for(int i=1;i<=numPorts;i++)` (caldevice.cpp:150):
the list `[1, …, numPorts]`. -/
def portRange (n : Int) : List Nat := List.range' 1 n.toNat

/-- The pair loop `for(int j=i+1;j<=numPorts;j++)` (caldevice.cpp:137 and
187): the list `[i+1, …, numPorts]`. -/
def pairRange (i : Nat) (n : Int) : List Nat := List.range' (i + 1) (n.toNat - i)

/-- All through pairs `(i, j)` in the order the acquisition loop pushes
them: `(1,2), (1,3), …, (1,P), (2,3), …, (P-1,P)`. -/
def throughPairs (n : Int) : List (Nat × Nat) :=
  (portRange n).flatMap (fun i => (pairRange i n).map (fun j => (i, j)))

/-- `QString::startsWith` (the model keeps device strings as Lean `String`
and implements the Qt operations on the underlying character list). -/
def qStartsWith (s pre : String) : Bool := pre.data.isPrefixOf s.data

/-- `QString::endsWith`. -/
def qEndsWith (s suf : String) : Bool := suf.data.isSuffixOf s.data

/-- Helper for `QString::split(",")`: split a character list at every
comma, keeping empty parts (Qt's default). -/
def splitCommaAux : List Char → List (List Char)
  | [] => [[]]
  | c :: rest =>
    if c = ',' then [] :: splitCommaAux rest
    else match splitCommaAux rest with
      | [] => [[c]]
      | h :: t => (c :: h) :: t

/-- `QString::split(",")` as used on the `:COEFF:LIST?` response
(caldevice.cpp:129). -/
def qSplitComma (s : String) : List String := (splitCommaAux s.data).map String.mk

/-- Notifications emitted by the acquisition run: the
`updateCoefficientsPercent(newPercentage)` signal and the
`updateCoefficientsDone()` signal. -/
inductive Event where
  | progress (pct : Nat)
  | done
deriving DecidableEq

/-- The abstract device oracle behind `usb->Query`, with the responses
already split per protocol command: `numPorts` (the `:PORTS?` result held by
the session, a C++ `int`), the raw `:COEFF:LIST?` response, the
`:COEFF:NUM? <set> <param>` response after `toInt` (which yields `0` for an
unparsable string), and the comma-split, `toDouble`-parsed values of
`:COEFF:GET? <set> <param> <i>`. A deterministic oracle models a device
that answers repeated queries consistently. -/
structure Device where
  numPorts : Int
  coeffListResp : String
  num : String → String → Int
  point : String → String → Nat → List ℚ

/-- Parameter name `P<i>_OPEN` (caldevice.cpp:134/184). -/
def openName (i : Nat) : String := "P" ++ toString i ++ "_OPEN"

/-- Parameter name `P<i>_SHORT` (caldevice.cpp:135/185). -/
def shortName (i : Nat) : String := "P" ++ toString i ++ "_SHORT"

/-- Parameter name `P<i>_LOAD` (caldevice.cpp:136/186). -/
def loadName (i : Nat) : String := "P" ++ toString i ++ "_LOAD"

/-- Parameter name `P<i><j>_THROUGH` (caldevice.cpp:138/188). -/
def throughName (i j : Nat) : String := "P" ++ toString i ++ toString j ++ "_THROUGH"

/-- The contribution of one coefficient set to the pre-scan total
(caldevice.cpp:132-141): for each port the Open/Short/Load counts, plus the
Through counts of each pair. -/
def setPointsInt (dev : Device) (name : String) : Int :=
  ((portRange dev.numPorts).map (fun i =>
    dev.num name (openName i) + dev.num name (shortName i) + dev.num name (loadName i) +
      ((pairRange i dev.numPorts).map (fun j => dev.num name (throughName i j))).sum)).sum

/-- The mathematical grand total of the pre-scan (caldevice.cpp:131-141),
before the `unsigned long` conversion. -/
def totalPointsInt (dev : Device) : Int :=
  ((qSplitComma dev.coeffListResp).map (setPointsInt dev)).sum

/-- `unsigned long totalPoints` as the code computes it: each `toInt`
result is accumulated into an `unsigned long`, so the final value is the
signed sum reduced modulo `2^64`. -/
def totalPoints (dev : Device) : Nat := ((totalPointsInt dev) % (2 : Int) ^ 64).toNat

/-- The mutable state threaded through `updateCoefficientSetsThread`:
`readPoints` and `lastPercentage` (caldevice.cpp:142-143), the list of
emitted signals in order, a flag recording whether
`readPoints * 100 / totalPoints` was ever evaluated with `totalPoints == 0`
(undefined behaviour in C++), the current contents of the `coeffSets`
member, and the sequence of observable values `coeffSets` has taken. -/
structure RunState where
  readPoints : Nat
  lastPercentage : Nat
  events : List Event
  divByZero : Bool
  sets : List CoefficientSet
  trace : List (List CoefficientSet)

/-- One iteration `i` of the point loop of `createCoefficient`
(caldevice.cpp:159-181): fetch and parse point `i`, append it to the trace,
increment `readPoints`, recompute the percentage and emit
`updateCoefficientsPercent` when it changed from `lastPercentage`. -/
def processPoint (dev : Device) (tp : Nat) (setName paramName : String) (i : Nat)
    (c : Coefficient) (st : RunState) : Coefficient × RunState :=
  let p := makeDatapoint (dev.point setName paramName i)
  let c' := { c with t := c.t.AddDatapoint p }
  let readPoints' := st.readPoints + 1
  let dz := st.divByZero || decide (tp = 0)
  let newPercentage := readPoints' * 100 / tp
  if newPercentage ≠ st.lastPercentage then
    (c', { st with
      readPoints := readPoints'
      divByZero := dz
      lastPercentage := newPercentage
      events := st.events ++ [.progress newPercentage] })
  else
    (c', { st with readPoints := readPoints', divByZero := dz })

/-- The `createCoefficient` lambda (caldevice.cpp:151-183): query the point
count, allocate a 2-port trace for `*THROUGH` parameters and a 1-port trace
otherwise, then run the point loop. -/
def createCoefficient (dev : Device) (tp : Nat) (setName paramName : String)
    (st : RunState) : Coefficient × RunState :=
  let points := (dev.num setName paramName).toNat
  let t0 : Touchstone := if qEndsWith paramName "THROUGH" then ⟨2, []⟩ else ⟨1, []⟩
  (List.range points).foldl
    (fun cs i => processPoint dev tp setName paramName i cs.1 cs.2)
    (⟨t0, false⟩, st)

/-- The coefficient value `createCoefficient` produces, separated from the
progress bookkeeping (the datapoints depend only on the device responses,
not on the threaded run state). -/
def builtCoefficient (dev : Device) (setName paramName : String) : Coefficient :=
  let points := (dev.num setName paramName).toNat
  let t0 : Touchstone := if qEndsWith paramName "THROUGH" then ⟨2, []⟩ else ⟨1, []⟩
  { t := (List.range points).foldl
      (fun t i => t.AddDatapoint (makeDatapoint (dev.point setName paramName i))) t0,
    modified := false }

/-- One iteration `i` of the per-port loop building a coefficient set
(caldevice.cpp:150-190): push the Open, Short and Load coefficients of port
`i` and the Through coefficients of every pair `(i, j)`, `j > i`. -/
def buildPortStep (dev : Device) (tp : Nat) (name : String)
    (acc : CoefficientSet × RunState) (i : Nat) : CoefficientSet × RunState :=
  let o := createCoefficient dev tp name (openName i) acc.2
  let s := createCoefficient dev tp name (shortName i) o.2
  let l := createCoefficient dev tp name (loadName i) s.2
  let th := (pairRange i dev.numPorts).foldl
    (fun (a : List Coefficient × RunState) j =>
      let c := createCoefficient dev tp name (throughName i j) a.2
      (a.1 ++ [c.1], c.2)) ([], l.2)
  ({ acc.1 with
     opens := acc.1.opens ++ [o.1]
     shorts := acc.1.shorts ++ [s.1]
     loads := acc.1.loads ++ [l.1]
     throughs := acc.1.throughs ++ th.1 }, th.2)

/-- Building one complete coefficient set (caldevice.cpp:144-190): start
from an empty set carrying the device's port count and run the per-port
loop. -/
def buildSet (dev : Device) (tp : Nat) (name : String) (st : RunState) :
    CoefficientSet × RunState :=
  (portRange dev.numPorts).foldl (buildPortStep dev tp name)
    ({ name := name, ports := dev.numPorts, opens := [], shorts := [],
       loads := [], throughs := [] }, st)

/-- The value of the coefficient set built for `name`, separated from the
progress bookkeeping. -/
def builtSet (dev : Device) (name : String) : CoefficientSet :=
  { name := name, ports := dev.numPorts,
    opens := (portRange dev.numPorts).map (fun i => builtCoefficient dev name (openName i)),
    shorts := (portRange dev.numPorts).map (fun i => builtCoefficient dev name (shortName i)),
    loads := (portRange dev.numPorts).map (fun i => builtCoefficient dev name (loadName i)),
    throughs := (portRange dev.numPorts).flatMap (fun i =>
      (pairRange i dev.numPorts).map (fun j => builtCoefficient dev name (throughName i j))) }

/-- `CalDevice::updateCoefficientSetsThread` (caldevice.cpp:121-194): abort
with only the completion signal when the `:COEFF:LIST?` response does not
start with `FACTORY`; otherwise pre-scan the total point count, build every
listed set (appending each to `coeffSets` as it completes, and recording the
observable `coeffSets` value after each push), and finally emit
`updateCoefficientsDone`. -/
def runThread (dev : Device) (st0 : RunState) : RunState :=
  if qStartsWith dev.coeffListResp "FACTORY" then
    let names := qSplitComma dev.coeffListResp
    let tp := totalPoints dev
    let stN := names.foldl (fun st name =>
      let bs := buildSet dev tp name st
      { bs.2 with
        sets := bs.2.sets ++ [bs.1]
        trace := bs.2.trace ++ [bs.2.sets ++ [bs.1]] }) st0
    { stN with events := stN.events ++ [.done] }
  else
    { st0 with events := st0.events ++ [.done] }

/-- `CalDevice::updateCoefficientSets` (caldevice.cpp:115-119) followed by
the thread body: `coeffSets.clear()` happens before the thread starts, so
the observable collection values begin with the prior collection and then
the cleared (empty) one. -/
def updateCoefficientSetsRun (dev : Device) (prior : List CoefficientSet) : RunState :=
  runThread dev
    { readPoints := 0, lastPercentage := 0, events := [], divByZero := false,
      sets := [], trace := [prior, []] }

/-- `CalDevice::hasModifiedCoefficients` (caldevice.cpp:201-225): scan all
sets, returning `true` at the first coefficient whose `modified` flag is
set. The C++ function is non-void but has no return statement after the
loop, so when nothing is modified control falls off the end and the result
is undefined: the model returns `none` on that path and `some true` on the
defined one. -/
def hasModifiedCoefficients : List CoefficientSet → Option Bool
  | [] => none
  | s :: rest =>
    if s.opens.any (fun c => c.modified) then some true
    else if s.shorts.any (fun c => c.modified) then some true
    else if s.loads.any (fun c => c.modified) then some true
    else if s.throughs.any (fun c => c.modified) then some true
    else hasModifiedCoefficients rest

/-- Percentages in emission order, extracted from the event list. -/
def progressVals (evs : List Event) : List Nat :=
  evs.filterMap (fun e => match e with | .progress n => some n | .done => none)

/-- A demo 2-port through coefficient. -/
def throughCoeffDemo : Coefficient := ⟨⟨2, []⟩, false⟩

/-- A 2-port coefficient set holding exactly its one through slot `(1,2)`. -/
def twoPortSet : CoefficientSet := ⟨"FACTORY", 2, [], [], [], [throughCoeffDemo]⟩

/-- A device whose `:COEFF:LIST?` response does not start with `FACTORY`. -/
def abortDev : Device := ⟨2, "NOTREADY", fun _ _ => 0, fun _ _ _ => []⟩

/-- A 2-port device with one stored point on the `(1,2)` through and nothing
else. -/
def dev2 : Device := ⟨2, "FACTORY", fun _ p => if p = "P12_THROUGH" then 1 else 0,
  fun _ _ _ => []⟩

/-- A 1-port device with 10 stored open points: a run with
`totalPoints = 10`. -/
def c4dev : Device := ⟨1, "FACTORY", fun _ p => if p = "P1_OPEN" then 10 else 0,
  fun _ _ _ => []⟩

/-- A 1-port device with no stored points at all. -/
def zeroDev : Device := ⟨1, "FACTORY", fun _ _ => 0, fun _ _ _ => []⟩

/-- A set with a modified open coefficient. -/
def modifiedSet : CoefficientSet := ⟨"FACTORY", 1, [⟨⟨1, []⟩, true⟩], [], [], []⟩

/-- A nonempty set with nothing modified. -/
def unmodifiedSet : CoefficientSet := ⟨"FACTORY", 1, [⟨⟨1, []⟩, false⟩], [], [], []⟩

/-- The invariant maintained by the progress-reporting state across a run
with total `tp`: the emitted percentages are strictly increasing, all of
them positive and at most `lastPercentage`, `lastPercentage` never exceeds
the current percentage, and only progress events have been emitted so
far. -/
def ProgressInv (tp : Nat) (st : RunState) : Prop :=
  List.Chain' (· < ·) (progressVals st.events) ∧
  (∀ x ∈ progressVals st.events, x ≤ st.lastPercentage ∧ 0 < x) ∧
  st.lastPercentage ≤ st.readPoints * 100 / tp ∧
  st.events = (progressVals st.events).map Event.progress

/-- C10: the standard codec round-trips (`StandardFromString ∘
StandardToString = id` on all five variants) and every string distinct from
all five canonical encodings decodes to `Standard.None`. -/
theorem standard_codec_roundtrip (s : Standard) (str : String)
    (h : str ≠ "OPEN" ∧ str ≠ "SHORT" ∧ str ≠ "LOAD" ∧
      str ≠ "THROUGH" ∧ str ≠ "NONE") :
    StandardFromString (StandardToString s) = s ∧
      StandardFromString str = Standard.None := by
  constructor
  · cases s <;> rfl
  · obtain ⟨h1, h2, h3, h4, h5⟩ := h
    simp [StandardFromString, standardScanOrder, List.find?, StandardToString,
      beq_eq_false_iff_ne.2 h1, beq_eq_false_iff_ne.2 h2, beq_eq_false_iff_ne.2 h3,
      beq_eq_false_iff_ne.2 h4, beq_eq_false_iff_ne.2 h5]

/-- Witness for C10 at the concrete unknown string `"garbage"`. -/
theorem standard_codec_roundtrip_witness :
    StandardFromString (StandardToString Standard.Load) = Standard.Load ∧
      StandardFromString "garbage" = Standard.None :=
  standard_codec_roundtrip Standard.Load "garbage" (by decide)

/-- C8: a 9-element raw record `[f, r0,i0, r1,i1, r2,i2, r3,i3]` is stored
with positions 1 and 2 (0-based) of the complex list swapped and the
frequency scaled by `10^9`; any point whose complex list does not have
exactly 4 entries is stored unmodified. -/
theorem wire_order_correction (f r0 i0 r1 i1 r2 i2 r3 i3 : ℚ) :
    makeDatapoint [f, r0, i0, r1, i1, r2, i2, r3, i3] =
      { frequency := f * 10 ^ 9,
        S := [(r0, i0), (r2, i2), (r1, i1), (r3, i3)] } ∧
    ∀ values : List ℚ, (buildS values).length ≠ 4 →
      makeDatapoint values =
        { frequency := values.getD 0 0 * 10 ^ 9, S := buildS values } := by
  refine ⟨?_, ?_⟩
  · have hb : buildS [f, r0, i0, r1, i1, r2, i2, r3, i3] =
        [(r0, i0), (r1, i1), (r2, i2), (r3, i3)] := by
      simp [buildS, List.range_succ]
    simp [makeDatapoint, hb, swapS12]
  · intro values h
    simp [makeDatapoint, h]

/-- Witness for C8: the 4-element swap on a concrete record together with a
concrete 1-element (1-port) record stored unmodified. -/
theorem wire_order_correction_witness :
    makeDatapoint [(1 : ℚ), 2, 3, 4, 5, 6, 7, 8, 9] =
      { frequency := (1 : ℚ) * 10 ^ 9,
        S := [((2 : ℚ), (3 : ℚ)), (6, 7), (4, 5), (8, 9)] } ∧
    makeDatapoint [(1 : ℚ), 2, 3] =
      { frequency := ((1 : ℚ),(2:ℚ)).1 * 10 ^ 9, S := buildS [(1 : ℚ), 2, 3] } := by
  constructor
  · exact (wire_order_correction 1 2 3 4 5 6 7 8 9).1
  · exact (wire_order_correction 1 2 3 4 5 6 7 8 9).2 [1, 2, 3] (by decide)

theorem triSum_mono (P : Nat) {m n : Nat} (h : m ≤ n) : triSum P m ≤ triSum P n := by
  induction n with
  | zero => simp [Nat.le_zero.1 h]
  | succ n ih =>
    rcases Nat.lt_or_ge m (n + 1) with hlt | hge
    · exact le_trans (ih (Nat.lt_succ_iff.1 hlt)) (Nat.le_add_right _ _)
    · have : m = n + 1 := le_antisymm h hge
      simp [this]

theorem triSum_cast_sum (P n : Nat) (hn : n ≤ P) :
    (triSum P n : Int) = ∑ k in Finset.range n, ((P : Int) - (k + 1)) := by
  induction n with
  | zero => simp [triSum]
  | succ n ih =>
    have hn' : n ≤ P := Nat.le_of_succ_le hn
    have hcast : ((P - (n + 1) : Nat) : Int) = (P : Int) - (n + 1) := by
      have := Int.ofNat_sub hn
      push_cast at this ⊢
      omega
    rw [Finset.sum_range_succ, ← ih hn', triSum]
    push_cast [hcast]
    ring

theorem two_mul_triSum (P : Nat) : ∀ n, n ≤ P →
    2 * (triSum P n : Int) = n * (2 * P - n - 1)
  | 0, _ => by simp [triSum]
  | n + 1, h => by
    have ih := two_mul_triSum P n (Nat.le_of_succ_le h)
    have hcast : ((P - (n + 1) : Nat) : Int) = (P : Int) - (n + 1) := by
      omega
    rw [triSum]
    push_cast [hcast]
    push_cast at ih
    linear_combination ih

/-- The total number of through pairs: `triSum P (P-1) = P*(P-1)/2`. -/
theorem triSum_total (P : Nat) : triSum P (P - 1) = P * (P - 1) / 2 := by
  have h2 : 2 * (triSum P (P - 1) : Int) = (P - 1 : Nat) * (2 * P - (P - 1 : Nat) - 1) :=
    two_mul_triSum P (P - 1) (Nat.sub_le _ _)
  rcases Nat.eq_zero_or_pos P with hP | hP
  · simp [hP, triSum]
  · have hcast : ((P - 1 : Nat) : Int) = (P : Int) - 1 := by omega
    rw [hcast] at h2
    have h2' : 2 * (triSum P (P - 1) : Int) = (P : Int) * ((P : Int) - 1) := by
      linear_combination h2
    have hmul : (P * (P - 1) : Nat) = (2 * triSum P (P - 1) : Nat) := by
      have : ((P * (P - 1) : Nat) : Int) = ((2 * triSum P (P - 1) : Nat) : Int) := by
        push_cast [hcast]
        linear_combination - h2'
      exact_mod_cast this
    omega

/-- The `getThrough` loop run for `n` iterations starting at `port1 = n + 1`
adds exactly `triSum P n` to the index (each iteration contributes
`P - port1 + 1`). -/
theorem getThroughLoop_spec (P : Nat) : ∀ n : Nat, n ≤ P → ∀ index : Int,
    getThroughLoop (P : Int) n ((n : Int) + 1) index = index + triSum P n
  | 0, _, index => by simp [getThroughLoop, triSum]
  | n + 1, h, index => by
    have hsub : ((P - (n + 1) : Nat) : Int) = (P : Int) - (n + 1) := by omega
    have step : ((n + 1 : Nat) : Int) + 1 - 1 = (n : Int) + 1 := by push_cast; ring
    have ih := getThroughLoop_spec P n (Nat.le_of_succ_le h)
      (index + ((P : Int) - ((n + 1 : Nat) : Int) - 1 + 1 + 1 - 1))
    rw [getThroughLoop]
    rw [show (index + ((P : Int) - (((n + 1 : Nat) : Int) + 1) + 1)) =
      index + ((P : Int) - ((n + 1 : Nat) : Int) - 1 + 1 + 1 - 1) by push_cast; ring]
    rw [step, ih, triSum]
    push_cast [hsub]
    ring

/-- On a valid pair `1 ≤ a < b ≤ P`, the C++ index computation
`addressIndex` agrees with `pairIndex`. -/
theorem addressIndex_eq_pairIndex (P a b : Nat) (ha : 1 ≤ a) (hab : a < b) (hb : b ≤ P) :
    addressIndex (P : Int) (a : Int) (b : Int) = (pairIndex P a b : Int) := by
  have hn : ((a : Int) - 1).toNat = a - 1 := by omega
  have ha' : (((a - 1 : Nat) : Int)) + 1 = (a : Int) := by omega
  have hidx : (b : Int) - (a : Int) - 1 = ((b - a - 1 : Nat) : Int) := by omega
  have h1 : a - 1 ≤ P := by omega
  unfold addressIndex
  rw [hn, ← ha', getThroughLoop_spec P (a - 1) h1, pairIndex]
  push_cast
  omega

theorem triSum_step (P a : Nat) (ha : 1 ≤ a) : triSum P a = triSum P (a - 1) + (P - a) := by
  obtain ⟨a', rfl⟩ : ∃ a', a = a' + 1 := ⟨a - 1, by omega⟩
  simp [triSum]

theorem pairIndex_lt_total (P a b : Nat) (ha : 1 ≤ a) (hab : a < b) (hb : b ≤ P) :
    pairIndex P a b < P * (P - 1) / 2 := by
  have hstep := triSum_step P a ha
  have hmono : triSum P a ≤ triSum P (P - 1) := triSum_mono P (by omega)
  have htot := triSum_total P
  have : pairIndex P a b < triSum P a := by
    unfold pairIndex
    omega
  omega

/-- Pairs with a smaller first port occupy strictly smaller indices. -/
theorem pairIndex_lt_of_fst_lt (P a b a' b' : Nat)
    (ha : 1 ≤ a) (hab : a < b) (hb : b ≤ P)
    (ha' : 1 ≤ a') (hab' : a' < b') (_hb' : b' ≤ P) (haa : a < a') :
    pairIndex P a b < pairIndex P a' b' := by
  have hstep := triSum_step P a ha
  have hmono : triSum P a ≤ triSum P (a' - 1) := triSum_mono P (by omega)
  unfold pairIndex
  omega

theorem pairIndex_injective (P a b a' b' : Nat)
    (ha : 1 ≤ a) (hab : a < b) (hb : b ≤ P)
    (ha' : 1 ≤ a') (hab' : a' < b') (hb' : b' ≤ P)
    (heq : pairIndex P a b = pairIndex P a' b') : a = a' ∧ b = b' := by
  rcases lt_trichotomy a a' with h | h | h
  · exact absurd heq (Nat.ne_of_lt (pairIndex_lt_of_fst_lt P a b a' b' ha hab hb ha' hab' hb' h))
  · subst h
    unfold pairIndex at heq
    omega
  · exact absurd heq.symm
      (Nat.ne_of_lt (pairIndex_lt_of_fst_lt P a' b' a b ha' hab' hb' ha hab hb h))

theorem pairIndex_surjective_aux (P : Nat) : ∀ m, m ≤ P - 1 → ∀ n, n < triSum P m →
    ∃ a b, 1 ≤ a ∧ a ≤ m ∧ a < b ∧ b ≤ P ∧ pairIndex P a b = n
  | 0, _, n, hn => by simp [triSum] at hn
  | m + 1, hm, n, hn => by
    rcases Nat.lt_or_ge n (triSum P m) with hlt | hge
    · obtain ⟨a, b, h1, h2, h3, h4, h5⟩ :=
        pairIndex_surjective_aux P m (by omega) n hlt
      exact ⟨a, b, h1, by omega, h3, h4, h5⟩
    · refine ⟨m + 1, n - triSum P m + m + 2, by omega, le_refl _, by omega, ?_, ?_⟩
      · have : triSum P (m + 1) = triSum P m + (P - (m + 1)) := rfl
        omega
      · unfold pairIndex
        have : triSum P (m + 1) = triSum P m + (P - (m + 1)) := rfl
        simp only [Nat.add_sub_cancel]
        omega

/-- C2: on every valid pair `1 ≤ a < b ≤ P` the index computed by
`getThrough` equals `∑ k in [1..a-1], (P - k) + (b - a - 1)`, it lies in
`{0, …, P*(P-1)/2 - 1}`, the mapping is injective on valid pairs, and every
slot below `P*(P-1)/2` is hit by some valid pair — i.e. the addressing is a
bijection onto the through-storage range. -/
theorem addressIndex_bijection (P a b : Nat) (ha : 1 ≤ a) (hab : a < b) (hb : b ≤ P) :
    (addressIndex (P : Int) (a : Int) (b : Int) =
        (∑ k in Finset.range (a - 1), ((P : Int) - (k + 1))) + ((b : Int) - a - 1)) ∧
    (0 ≤ addressIndex (P : Int) (a : Int) (b : Int) ∧
        (addressIndex (P : Int) (a : Int) (b : Int)).toNat < P * (P - 1) / 2) ∧
    (∀ a' b' : Nat, 1 ≤ a' → a' < b' → b' ≤ P →
        addressIndex (P : Int) (a' : Int) (b' : Int) =
          addressIndex (P : Int) (a : Int) (b : Int) → a' = a ∧ b' = b) ∧
    (∀ n : Nat, n < P * (P - 1) / 2 → ∃ a' b' : Nat, 1 ≤ a' ∧ a' < b' ∧ b' ≤ P ∧
        addressIndex (P : Int) (a' : Int) (b' : Int) = (n : Int)) := by
  have heq := addressIndex_eq_pairIndex P a b ha hab hb
  refine ⟨?_, ⟨?_, ?_⟩, ?_, ?_⟩
  · rw [heq, pairIndex, ← triSum_cast_sum P (a - 1) (by omega)]
    push_cast
    omega
  · rw [heq]
    positivity
  · rw [heq]
    have := pairIndex_lt_total P a b ha hab hb
    omega
  · intro a' b' ha' hab' hb' heq'
    rw [heq, addressIndex_eq_pairIndex P a' b' ha' hab' hb'] at heq'
    have : pairIndex P a' b' = pairIndex P a b := by exact_mod_cast heq'
    exact pairIndex_injective P a' b' a b ha' hab' hb' ha hab hb this
  · intro n hn
    rw [← triSum_total P] at hn
    obtain ⟨a', b', h1, _, h3, h4, h5⟩ :=
      pairIndex_surjective_aux P (P - 1) (le_refl _) n hn
    exact ⟨a', b', h1, h3, h4, by rw [addressIndex_eq_pairIndex P a' b' h1 h3 h4, h5]⟩

/-- Witness for C2 at `P = 4`, `(a, b) = (2, 4)`: concrete index value and
range bound. -/
theorem addressIndex_bijection_witness :
    addressIndex (4 : Int) (2 : Int) (4 : Int) = 4 ∧
      (addressIndex ((4 : Nat) : Int) ((2 : Nat) : Int) ((4 : Nat) : Int)).toNat <
        4 * (4 - 1) / 2 := by
  constructor
  · decide
  · exact ((addressIndex_bijection 4 2 4 (by decide) (by decide) (by decide)).2.1).2

theorem throughPairs_getElem_aux (P : Nat) : ∀ (d s a b : Nat), s + d = a → 1 ≤ s →
    a < b → b ≤ P →
    ((List.range' s (P + 1 - s)).flatMap
        (fun i => (List.range' (i + 1) (P - i)).map (fun j => (i, j))))[
      triSum P (a - 1) - triSum P (s - 1) + (b - a - 1)]? = some (a, b)
  | 0, s, a, b, hd, hs, hab, hb => by
    have hsa : s = a := by omega
    subst hsa
    have hsP : P + 1 - s = (P - s) + 1 := by omega
    rw [hsP, List.range'_succ, List.flatMap_cons]
    have hlen : ((List.range' (s + 1) (P - s)).map (fun j => (s, j))).length = P - s := by
      simp
    have hidx : triSum P (s - 1) - triSum P (s - 1) + (b - s - 1) = b - s - 1 := by omega
    have hn' : b - s - 1 < ((List.range' (s + 1) (P - s)).map (fun j => (s, j))).length := by
      rw [hlen]; omega
    rw [hidx, List.getElem?_append_left hn', List.getElem?_map]
    have hb' : b - s - 1 < P - s := by omega
    simp only [List.getElem?_range', hb', if_true, reduceIte, Option.map_some']
    congr 1
    simp only [Prod.mk.injEq]
    exact ⟨trivial, by omega⟩
  | d + 1, s, a, b, hd, hs, hab, hb => by
    have hsa : s < a := by omega
    have hsP : P + 1 - s = (P - s) + 1 := by omega
    rw [hsP, List.range'_succ, List.flatMap_cons]
    have hstep := triSum_step P s hs
    have hmono : triSum P s ≤ triSum P (a - 1) := triSum_mono P (by omega)
    have hlen : ((List.range' (s + 1) (P - s)).map (fun j => (s, j))).length = P - s := by
      simp
    have hge : ((List.range' (s + 1) (P - s)).map (fun j => (s, j))).length ≤
        triSum P (a - 1) - triSum P (s - 1) + (b - a - 1) := by
      rw [hlen]; omega
    rw [List.getElem?_append_right hge]
    have ih := throughPairs_getElem_aux P d (s + 1) a b (by omega) (by omega) hab hb
    rw [show P + 1 - (s + 1) = P - s from by omega] at ih
    simp only [Nat.add_sub_cancel] at ih
    rw [show triSum P (a - 1) - triSum P (s - 1) + (b - a - 1) -
        ((List.range' (s + 1) (P - s)).map (fun j => (s, j))).length =
        triSum P (a - 1) - triSum P s + (b - a - 1) from by
      rw [hlen]; omega]
    exact ih

/-- A valid pair `(a, b)` sits at position `pairIndex P a b` of the ordered
through-pair list. -/
theorem throughPairs_getElem (P a b : Nat) (ha : 1 ≤ a) (hab : a < b) (hb : b ≤ P) :
    (throughPairs ((P : Nat) : Int))[pairIndex P a b]? = some (a, b) := by
  have h := throughPairs_getElem_aux P (a - 1) 1 a b (by omega) (le_refl 1) hab hb
  rw [show P + 1 - 1 = P from by omega] at h
  have : triSum P (a - 1) - triSum P (1 - 1) + (b - a - 1) = pairIndex P a b := by
    simp [pairIndex, triSum]
  rw [this] at h
  simpa [throughPairs, portRange, pairRange] using h

theorem progressVals_append (l1 l2 : List Event) :
    progressVals (l1 ++ l2) = progressVals l1 ++ progressVals l2 := by
  simp [progressVals]

theorem processPoint_fst (dev : Device) (tp : Nat) (sn pn : String) (i : Nat)
    (c : Coefficient) (st : RunState) :
    (processPoint dev tp sn pn i c st).1 =
      { c with t := c.t.AddDatapoint (makeDatapoint (dev.point sn pn i)) } := by
  by_cases h : (st.readPoints + 1) * 100 / tp ≠ st.lastPercentage <;>
    simp [processPoint, h]

theorem processPoint_snd_sets_trace (dev : Device) (tp : Nat) (sn pn : String) (i : Nat)
    (c : Coefficient) (st : RunState) :
    (processPoint dev tp sn pn i c st).2.sets = st.sets ∧
      (processPoint dev tp sn pn i c st).2.trace = st.trace := by
  by_cases h : (st.readPoints + 1) * 100 / tp ≠ st.lastPercentage <;>
    simp [processPoint, h]

theorem pointFold_fst (dev : Device) (tp : Nat) (sn pn : String) :
    ∀ (l : List Nat) (c : Coefficient) (st : RunState),
    ((l.foldl (fun cs i => processPoint dev tp sn pn i cs.1 cs.2) (c, st)).1) =
      ⟨l.foldl (fun t i => t.AddDatapoint (makeDatapoint (dev.point sn pn i))) c.t,
        c.modified⟩
  | [], c, st => rfl
  | i :: l, c, st => by
    simp only [List.foldl_cons]
    rw [show processPoint dev tp sn pn i c st =
        ((processPoint dev tp sn pn i c st).1, (processPoint dev tp sn pn i c st).2)
      from rfl]
    rw [pointFold_fst dev tp sn pn l _ _, processPoint_fst]

theorem pointFold_snd_sets_trace (dev : Device) (tp : Nat) (sn pn : String) :
    ∀ (l : List Nat) (c : Coefficient) (st : RunState),
    ((l.foldl (fun cs i => processPoint dev tp sn pn i cs.1 cs.2) (c, st)).2.sets = st.sets ∧
      (l.foldl (fun cs i => processPoint dev tp sn pn i cs.1 cs.2) (c, st)).2.trace = st.trace)
  | [], c, st => ⟨rfl, rfl⟩
  | i :: l, c, st => by
    simp only [List.foldl_cons]
    rw [show processPoint dev tp sn pn i c st =
        ((processPoint dev tp sn pn i c st).1, (processPoint dev tp sn pn i c st).2)
      from rfl]
    have h1 := processPoint_snd_sets_trace dev tp sn pn i c st
    have h2 := pointFold_snd_sets_trace dev tp sn pn l
      (processPoint dev tp sn pn i c st).1 (processPoint dev tp sn pn i c st).2
    exact ⟨h2.1.trans h1.1, h2.2.trans h1.2⟩

/-- The coefficient value built by `createCoefficient` does not depend on
the progress state or on the pre-scanned total. -/
theorem createCoefficient_fst (dev : Device) (tp : Nat) (sn pn : String) (st : RunState) :
    (createCoefficient dev tp sn pn st).1 = builtCoefficient dev sn pn := by
  unfold createCoefficient builtCoefficient
  rw [pointFold_fst]

theorem createCoefficient_snd_sets_trace (dev : Device) (tp : Nat) (sn pn : String)
    (st : RunState) :
    (createCoefficient dev tp sn pn st).2.sets = st.sets ∧
      (createCoefficient dev tp sn pn st).2.trace = st.trace := by
  unfold createCoefficient
  exact pointFold_snd_sets_trace dev tp sn pn _ _ _

theorem throughFold_fst (dev : Device) (tp : Nat) (name : String) (i : Nat) :
    ∀ (l : List Nat) (acc : List Coefficient) (st : RunState),
    ((l.foldl (fun (a : List Coefficient × RunState) j =>
        let c := createCoefficient dev tp name (throughName i j) a.2
        (a.1 ++ [c.1], c.2)) (acc, st)).1) =
      acc ++ l.map (fun j => builtCoefficient dev name (throughName i j))
  | [], acc, st => by simp
  | j :: l, acc, st => by
    simp only [List.foldl_cons, List.map_cons]
    rw [throughFold_fst dev tp name i l _ _, createCoefficient_fst]
    simp

theorem throughFold_snd_sets_trace (dev : Device) (tp : Nat) (name : String) (i : Nat) :
    ∀ (l : List Nat) (acc : List Coefficient) (st : RunState),
    ((l.foldl (fun (a : List Coefficient × RunState) j =>
        let c := createCoefficient dev tp name (throughName i j) a.2
        (a.1 ++ [c.1], c.2)) (acc, st)).2.sets = st.sets ∧
     (l.foldl (fun (a : List Coefficient × RunState) j =>
        let c := createCoefficient dev tp name (throughName i j) a.2
        (a.1 ++ [c.1], c.2)) (acc, st)).2.trace = st.trace)
  | [], acc, st => ⟨rfl, rfl⟩
  | j :: l, acc, st => by
    simp only [List.foldl_cons]
    have h1 := createCoefficient_snd_sets_trace dev tp name (throughName i j) st
    have h2 := throughFold_snd_sets_trace dev tp name i l
      (acc ++ [(createCoefficient dev tp name (throughName i j) st).1])
      (createCoefficient dev tp name (throughName i j) st).2
    exact ⟨h2.1.trans h1.1, h2.2.trans h1.2⟩

theorem buildPortStep_fst (dev : Device) (tp : Nat) (name : String)
    (cs : CoefficientSet) (st : RunState) (i : Nat) :
    (buildPortStep dev tp name (cs, st) i).1 =
      { cs with
        opens := cs.opens ++ [builtCoefficient dev name (openName i)]
        shorts := cs.shorts ++ [builtCoefficient dev name (shortName i)]
        loads := cs.loads ++ [builtCoefficient dev name (loadName i)]
        throughs := cs.throughs ++ (pairRange i dev.numPorts).map
          (fun j => builtCoefficient dev name (throughName i j)) } := by
  unfold buildPortStep
  dsimp only
  rw [throughFold_fst]
  simp [createCoefficient_fst]

theorem buildPortStep_snd_sets_trace (dev : Device) (tp : Nat) (name : String)
    (cs : CoefficientSet) (st : RunState) (i : Nat) :
    (buildPortStep dev tp name (cs, st) i).2.sets = st.sets ∧
      (buildPortStep dev tp name (cs, st) i).2.trace = st.trace := by
  unfold buildPortStep
  dsimp only
  have h1 := createCoefficient_snd_sets_trace dev tp name (openName i) st
  have h2 := createCoefficient_snd_sets_trace dev tp name (shortName i)
    (createCoefficient dev tp name (openName i) st).2
  have h3 := createCoefficient_snd_sets_trace dev tp name (loadName i)
    (createCoefficient dev tp name (shortName i)
      (createCoefficient dev tp name (openName i) st).2).2
  have h4 := throughFold_snd_sets_trace dev tp name i (pairRange i dev.numPorts) []
    (createCoefficient dev tp name (loadName i)
      (createCoefficient dev tp name (shortName i)
        (createCoefficient dev tp name (openName i) st).2).2).2
  exact ⟨((h4.1.trans h3.1).trans h2.1).trans h1.1,
    ((h4.2.trans h3.2).trans h2.2).trans h1.2⟩

theorem portFold_fst (dev : Device) (tp : Nat) (name : String) :
    ∀ (l : List Nat) (cs : CoefficientSet) (st : RunState),
    ((l.foldl (buildPortStep dev tp name) (cs, st)).1) =
      { cs with
        opens := cs.opens ++ l.map (fun i => builtCoefficient dev name (openName i))
        shorts := cs.shorts ++ l.map (fun i => builtCoefficient dev name (shortName i))
        loads := cs.loads ++ l.map (fun i => builtCoefficient dev name (loadName i))
        throughs := cs.throughs ++ l.flatMap (fun i => (pairRange i dev.numPorts).map
          (fun j => builtCoefficient dev name (throughName i j))) }
  | [], cs, st => by simp
  | i :: l, cs, st => by
    simp only [List.foldl_cons]
    rw [show buildPortStep dev tp name (cs, st) i =
        ((buildPortStep dev tp name (cs, st) i).1, (buildPortStep dev tp name (cs, st) i).2)
      from rfl]
    rw [portFold_fst dev tp name l _ _, buildPortStep_fst]
    simp [List.flatMap_cons]

theorem portFold_snd_sets_trace (dev : Device) (tp : Nat) (name : String) :
    ∀ (l : List Nat) (cs : CoefficientSet) (st : RunState),
    ((l.foldl (buildPortStep dev tp name) (cs, st)).2.sets = st.sets ∧
      (l.foldl (buildPortStep dev tp name) (cs, st)).2.trace = st.trace)
  | [], cs, st => ⟨rfl, rfl⟩
  | i :: l, cs, st => by
    simp only [List.foldl_cons]
    rw [show buildPortStep dev tp name (cs, st) i =
        ((buildPortStep dev tp name (cs, st) i).1, (buildPortStep dev tp name (cs, st) i).2)
      from rfl]
    have h1 := buildPortStep_snd_sets_trace dev tp name cs st i
    have h2 := portFold_snd_sets_trace dev tp name l
      (buildPortStep dev tp name (cs, st) i).1 (buildPortStep dev tp name (cs, st) i).2
    exact ⟨h2.1.trans h1.1, h2.2.trans h1.2⟩

/-- The coefficient set built for `name` does not depend on the threaded
progress state. -/
theorem buildSet_fst (dev : Device) (tp : Nat) (name : String) (st : RunState) :
    (buildSet dev tp name st).1 = builtSet dev name := by
  unfold buildSet builtSet
  rw [portFold_fst]
  simp

theorem buildSet_snd_sets_trace (dev : Device) (tp : Nat) (name : String) (st : RunState) :
    (buildSet dev tp name st).2.sets = st.sets ∧
      (buildSet dev tp name st).2.trace = st.trace := by
  unfold buildSet
  exact portFold_snd_sets_trace dev tp name _ _ _

theorem namesFold_sets_trace (dev : Device) (tp : Nat) :
    ∀ (names : List String) (st0 : RunState),
    ((names.foldl (fun st name =>
        let bs := buildSet dev tp name st
        { bs.2 with
          sets := bs.2.sets ++ [bs.1]
          trace := bs.2.trace ++ [bs.2.sets ++ [bs.1]] }) st0).sets =
      st0.sets ++ names.map (builtSet dev) ∧
     (names.foldl (fun st name =>
        let bs := buildSet dev tp name st
        { bs.2 with
          sets := bs.2.sets ++ [bs.1]
          trace := bs.2.trace ++ [bs.2.sets ++ [bs.1]] }) st0).trace =
      st0.trace ++ (List.range names.length).map
        (fun k => st0.sets ++ (names.take (k + 1)).map (builtSet dev)))
  | [], st0 => by simp
  | nm :: names, st0 => by
    simp only [List.foldl_cons]
    have hb1 := buildSet_fst dev tp nm st0
    have hb2 := buildSet_snd_sets_trace dev tp nm st0
    have ih := namesFold_sets_trace dev tp names
      { (buildSet dev tp nm st0).2 with
        sets := (buildSet dev tp nm st0).2.sets ++ [(buildSet dev tp nm st0).1]
        trace := (buildSet dev tp nm st0).2.trace ++
          [(buildSet dev tp nm st0).2.sets ++ [(buildSet dev tp nm st0).1]] }
    dsimp only at ih ⊢
    rw [ih.1, ih.2, hb1, hb2.1, hb2.2]
    constructor
    · simp
    · simp [List.range_succ_eq_map, List.take_succ_cons, Function.comp_def,
        List.append_assoc]

/-- C3: the guard of `getThrough` rejects `port1 > ports`, `port2 > ports`
and `port1 ≥ port2`, but it does not reject ports below 1: on a 2-port set
with its single through slot, `getThrough(0,1)` silently returns the slot of
pair `(1,2)` instead of reporting absence, and `getThrough(-1,1)` reads
`throughs[1]`, out of range of the length-1 vector — contradicting the
specified "absence, never an out-of-range read" contract. -/
theorem getThrough_missing_lower_bound_check :
    twoPortSet.getThrough 0 1 = .found throughCoeffDemo ∧
    twoPortSet.getThrough (-1) 1 = .outOfRange 1 ∧
    twoPortSet.getThrough 1 1 = .nullptr ∧
    twoPortSet.getThrough 2 1 = .nullptr ∧
    twoPortSet.getThrough 3 4 = .nullptr := by decide

/-- C9: `hasModifiedCoefficients` returns `true` when some coefficient is
modified, but when nothing is modified (or nothing was acquired) control
falls off the end of the non-void C++ function: there is no defined `false`
return (modelled as `none`). -/
theorem hasModifiedCoefficients_falls_off_end :
    hasModifiedCoefficients [] = none ∧
    hasModifiedCoefficients [unmodifiedSet] = none ∧
    hasModifiedCoefficients [modifiedSet] = some true := by decide

/-- C5 (amended): when the `:COEFF:LIST?` response does not start with
`FACTORY` the run stops with no partial sets recorded and still emits
exactly the completion signal — but the session's collection is not the
previously held one: `updateCoefficientSets` cleared it before the thread
started, so the collection observed after the abort is empty. -/
theorem run_abort (dev : Device) (prior : List CoefficientSet)
    (h : qStartsWith dev.coeffListResp "FACTORY" = false) :
    (updateCoefficientSetsRun dev prior).sets = [] ∧
    (updateCoefficientSetsRun dev prior).events = [Event.done] ∧
    (updateCoefficientSetsRun dev prior).trace = [prior, []] := by
  unfold updateCoefficientSetsRun runThread
  simp [h]

/-- Witness for C5 at the concrete device answering `NOTREADY`, with a
nonempty prior collection. -/
theorem run_abort_witness :
    (updateCoefficientSetsRun abortDev [twoPortSet]).sets = [] ∧
    (updateCoefficientSetsRun abortDev [twoPortSet]).events = [Event.done] ∧
    (updateCoefficientSetsRun abortDev [twoPortSet]).trace = [[twoPortSet], []] :=
  run_abort abortDev [twoPortSet] rfl

/-- Counterexample to C5 as stated: after the aborted run the session holds
the empty collection, not the previously held one-element collection. -/
theorem run_abort_counterexample :
    (updateCoefficientSetsRun abortDev [twoPortSet]).sets = [] ∧
    [twoPortSet].length = 1 ∧
    (updateCoefficientSetsRun abortDev [twoPortSet]).events = [Event.done] := by
  decide

/-- C6 (amended): the collection is not replaced atomically on completion —
`coeffSets` is cleared before the thread starts and each newly built set is
appended in place as it completes. The observable values of the collection
during a successful run are exactly: the prior collection, the empty
collection, and the strictly growing prefixes of the new collection; when
the completion signal (the last event) is emitted, the collection holds the
complete new list of sets. -/
theorem collection_rebuilt_incrementally (dev : Device) (prior : List CoefficientSet)
    (h : qStartsWith dev.coeffListResp "FACTORY" = true) :
    (updateCoefficientSetsRun dev prior).sets =
      (qSplitComma dev.coeffListResp).map (builtSet dev) ∧
    (updateCoefficientSetsRun dev prior).trace =
      [prior, []] ++ (List.range (qSplitComma dev.coeffListResp).length).map
        (fun k => ((qSplitComma dev.coeffListResp).take (k + 1)).map (builtSet dev)) ∧
    (updateCoefficientSetsRun dev prior).events.getLast? = some Event.done := by
  unfold updateCoefficientSetsRun runThread
  simp only [h, if_true]
  have hf := namesFold_sets_trace dev (totalPoints dev) (qSplitComma dev.coeffListResp)
    { readPoints := 0, lastPercentage := 0, events := [], divByZero := false,
      sets := [], trace := [prior, []] }
  refine ⟨?_, ?_, ?_⟩
  · rw [hf.1]
    simp
  · rw [hf.2]
    simp
  · simp [List.getLast?_concat]

/-- Witness for C6 at the concrete 2-port device with one listed set. -/
theorem collection_rebuilt_incrementally_witness :
    (updateCoefficientSetsRun dev2 [twoPortSet]).sets =
      (qSplitComma dev2.coeffListResp).map (builtSet dev2) ∧
    (updateCoefficientSetsRun dev2 [twoPortSet]).trace =
      [[twoPortSet], []] ++ (List.range (qSplitComma dev2.coeffListResp).length).map
        (fun k => ((qSplitComma dev2.coeffListResp).take (k + 1)).map (builtSet dev2)) ∧
    (updateCoefficientSetsRun dev2 [twoPortSet]).events.getLast? = some Event.done :=
  collection_rebuilt_incrementally dev2 [twoPortSet] rfl

/-- Counterexample to C6 as stated: during a run over a device listing one
set, starting from a one-element prior collection, an observer of the
collection sees the empty collection as its second observable value — a
state that is neither the prior complete collection (one element) nor the
new complete collection (one element). -/
theorem collection_torn_state_counterexample :
    (updateCoefficientSetsRun dev2 [twoPortSet]).trace =
      [[twoPortSet], [], [builtSet dev2 "FACTORY"]] ∧
    (updateCoefficientSetsRun dev2 [twoPortSet]).sets = [builtSet dev2 "FACTORY"] ∧
    [twoPortSet].length = 1 :=
  ⟨rfl, rfl, rfl⟩

theorem builtSet_throughs_map (dev : Device) (name : String) :
    (builtSet dev name).throughs = (throughPairs dev.numPorts).map
      (fun pr => builtCoefficient dev name (throughName pr.1 pr.2)) := by
  simp [builtSet, throughPairs, List.map_flatMap, List.map_map, Function.comp_def]

theorem run_sets_eq (dev : Device) (prior : List CoefficientSet)
    (hF : qStartsWith dev.coeffListResp "FACTORY" = true) :
    (updateCoefficientSetsRun dev prior).sets =
      (qSplitComma dev.coeffListResp).map (builtSet dev) := by
  unfold updateCoefficientSetsRun runThread
  simp only [hF, if_true]
  have hf := namesFold_sets_trace dev (totalPoints dev) (qSplitComma dev.coeffListResp)
    { readPoints := 0, lastPercentage := 0, events := [], divByZero := false,
      sets := [], trace := [prior, []] }
  rw [hf.1]
  simp

/-- C1: after a successful acquisition run, for every resulting coefficient
set `s` and every valid pair `1 ≤ a < b ≤ P`, `getThrough a b` returns
exactly the coefficient built for parameter `P<a><b>_THROUGH` of that set —
the value `createCoefficient` produces for that parameter irrespective of
the progress state it is invoked in. -/
theorem write_read_through_agreement (dev : Device) (prior : List CoefficientSet)
    (P a b : Nat) (hP : dev.numPorts = (P : Int))
    (hF : qStartsWith dev.coeffListResp "FACTORY" = true)
    (ha : 1 ≤ a) (hab : a < b) (hb : b ≤ P) :
    ∀ s ∈ (updateCoefficientSetsRun dev prior).sets,
      s.getThrough (a : Int) (b : Int) =
        LookupResult.found (builtCoefficient dev s.name (throughName a b)) ∧
      ∀ (tp : Nat) (st : RunState),
        (createCoefficient dev tp s.name (throughName a b) st).1 =
          builtCoefficient dev s.name (throughName a b) := by
  intro s hs
  refine ⟨?_, fun tp st => createCoefficient_fst dev tp s.name _ st⟩
  rw [run_sets_eq dev prior hF] at hs
  obtain ⟨nm, hnm, rfl⟩ := List.mem_map.1 hs
  have hthr := throughPairs_getElem P a b ha hab hb
  obtain ⟨hlt, hval⟩ := List.getElem?_eq_some.1 hthr
  have hports : (builtSet dev nm).ports = (P : Int) := by
    simp [builtSet, hP]
  have hmap : (builtSet dev nm).throughs = (throughPairs ((P : Nat) : Int)).map
      (fun pr => builtCoefficient dev nm (throughName pr.1 pr.2)) := by
    rw [builtSet_throughs_map, hP]
  have hname : (builtSet dev nm).name = nm := rfl
  unfold CoefficientSet.getThrough
  rw [if_neg (by rw [hports]; omega)]
  have hidx : addressIndex (builtSet dev nm).ports (a : Int) (b : Int) =
      ((pairIndex P a b : Nat) : Int) := by
    rw [hports]
    exact addressIndex_eq_pairIndex P a b ha hab hb
  have hlen : (pairIndex P a b : Nat) < (builtSet dev nm).throughs.length := by
    rw [hmap, List.length_map]
    exact hlt
  have hcond : 0 ≤ addressIndex (builtSet dev nm).ports (a : Int) (b : Int) ∧
      (addressIndex (builtSet dev nm).ports (a : Int) (b : Int)).toNat <
        (builtSet dev nm).throughs.length := by
    rw [hidx]
    exact ⟨Int.ofNat_nonneg _, by rwa [Int.toNat_natCast]⟩
  rw [dif_pos hcond, hname]
  have htn : (addressIndex (builtSet dev nm).ports ((a : Nat) : Int) ((b : Nat) : Int)).toNat =
      pairIndex P a b := by
    rw [hidx, Int.toNat_natCast]
  have h1 : (builtSet dev nm).throughs[(addressIndex (builtSet dev nm).ports
      ((a : Nat) : Int) ((b : Nat) : Int)).toNat]? =
      some (builtCoefficient dev nm (throughName a b)) := by
    rw [htn, hmap, List.getElem?_map, hthr]
    rfl
  have h2 : (builtSet dev nm).throughs.get ⟨(addressIndex (builtSet dev nm).ports
      ((a : Nat) : Int) ((b : Nat) : Int)).toNat, hcond.2⟩ =
      builtCoefficient dev nm (throughName a b) := by
    have h3 := List.getElem?_eq_getElem hcond.2
    rw [h1] at h3
    rw [List.get_eq_getElem]
    exact (Option.some_inj.1 h3).symm
  rw [h2]

/-- Witness for C1: on the concrete 2-port device, the first resulting
coefficient set answers `getThrough 1 2` with the coefficient built for
`P12_THROUGH`. -/
theorem write_read_through_agreement_witness :
    ((updateCoefficientSetsRun dev2 []).sets.getD 0 default).getThrough
        ((1 : Nat) : Int) ((2 : Nat) : Int) =
      LookupResult.found (builtCoefficient dev2
        ((updateCoefficientSetsRun dev2 []).sets.getD 0 default).name (throughName 1 2)) := by
  have hmem : (updateCoefficientSetsRun dev2 []).sets.getD 0 default ∈
      (updateCoefficientSetsRun dev2 []).sets := by
    have hss : (updateCoefficientSetsRun dev2 []).sets = [builtSet dev2 "FACTORY"] := rfl
    rw [hss]
    simp
  exact (write_read_through_agreement dev2 [] 2 1 2 rfl rfl (by omega) (by omega) (by omega)
    ((updateCoefficientSetsRun dev2 []).sets.getD 0 default) hmem).1

theorem intList_sum_zero : ∀ {l : List Int}, (∀ x ∈ l, 0 ≤ x) → l.sum = 0 →
    ∀ x ∈ l, x = 0
  | [], _, _ => by simp
  | a :: l, h0, hs => by
    have ha : 0 ≤ a := h0 a (by simp)
    have hl0 : ∀ x ∈ l, 0 ≤ x := fun x hx => h0 x (by simp [hx])
    have hls : 0 ≤ l.sum := List.sum_nonneg hl0
    simp only [List.sum_cons] at hs
    intro x hx
    rcases List.mem_cons.1 hx with rfl | hx'
    · omega
    · exact intList_sum_zero hl0 (by omega) x hx'

theorem setPointsInt_nonneg (dev : Device) (nm : String)
    (h0 : ∀ pr, 0 ≤ dev.num nm pr) : 0 ≤ setPointsInt dev nm := by
  apply List.sum_nonneg
  intro x hx
  obtain ⟨i, _, rfl⟩ := List.mem_map.1 hx
  have h4 : 0 ≤ ((pairRange i dev.numPorts).map (fun j => dev.num nm (throughName i j))).sum := by
    apply List.sum_nonneg
    intro y hy
    obtain ⟨j, _, rfl⟩ := List.mem_map.1 hy
    exact h0 _
  have h1 := h0 (openName i)
  have h2 := h0 (shortName i)
  have h3 := h0 (loadName i)
  omega

theorem createCoefficient_snd_zero (dev : Device) (tp : Nat) (nm pr : String)
    (st : RunState) (h : dev.num nm pr = 0) :
    (createCoefficient dev tp nm pr st).2 = st := by
  unfold createCoefficient
  rw [h]
  rfl

theorem throughFold_snd_zero (dev : Device) (tp : Nat) (nm : String) (i : Nat) :
    ∀ (l : List Nat) (acc : List Coefficient) (st : RunState),
    (∀ j ∈ l, dev.num nm (throughName i j) = 0) →
    ((l.foldl (fun (a : List Coefficient × RunState) j =>
        let c := createCoefficient dev tp nm (throughName i j) a.2
        (a.1 ++ [c.1], c.2)) (acc, st)).2 = st)
  | [], _, _, _ => rfl
  | j :: l, acc, st, h => by
    simp only [List.foldl_cons]
    have hj := createCoefficient_snd_zero dev tp nm (throughName i j) st (h j (by simp))
    have hrec := throughFold_snd_zero dev tp nm i l
      (acc ++ [(createCoefficient dev tp nm (throughName i j) st).1]) st
      (fun j' hj' => h j' (by simp [hj']))
    rw [hj]
    exact hrec

theorem buildPortStep_snd_zero (dev : Device) (tp : Nat) (nm : String)
    (cs : CoefficientSet) (st : RunState) (i : Nat)
    (ho : dev.num nm (openName i) = 0) (hsh : dev.num nm (shortName i) = 0)
    (hl : dev.num nm (loadName i) = 0)
    (ht : ∀ j ∈ pairRange i dev.numPorts, dev.num nm (throughName i j) = 0) :
    (buildPortStep dev tp nm (cs, st) i).2 = st := by
  unfold buildPortStep
  dsimp only
  rw [createCoefficient_snd_zero dev tp nm (openName i) st ho,
    createCoefficient_snd_zero dev tp nm (shortName i) st hsh,
    createCoefficient_snd_zero dev tp nm (loadName i) st hl]
  exact throughFold_snd_zero dev tp nm i (pairRange i dev.numPorts) _ st ht

theorem portFold_snd_zero (dev : Device) (tp : Nat) (nm : String) :
    ∀ (l : List Nat) (cs : CoefficientSet) (st : RunState),
    (∀ i ∈ l, dev.num nm (openName i) = 0 ∧ dev.num nm (shortName i) = 0 ∧
      dev.num nm (loadName i) = 0 ∧
      ∀ j ∈ pairRange i dev.numPorts, dev.num nm (throughName i j) = 0) →
    ((l.foldl (buildPortStep dev tp nm) (cs, st)).2 = st)
  | [], _, _, _ => rfl
  | i :: l, cs, st, h => by
    simp only [List.foldl_cons]
    obtain ⟨ho, hsh, hl, ht⟩ := h i (by simp)
    have hstep := buildPortStep_snd_zero dev tp nm cs st i ho hsh hl ht
    have hrec := portFold_snd_zero dev tp nm l
      (buildPortStep dev tp nm (cs, st) i).1 st
      (fun i' hi' => h i' (by simp [hi']))
    rw [show buildPortStep dev tp nm (cs, st) i =
      ((buildPortStep dev tp nm (cs, st) i).1, (buildPortStep dev tp nm (cs, st) i).2)
      from rfl, hstep]
    exact hrec

theorem buildSet_snd_zero (dev : Device) (tp : Nat) (nm : String) (st : RunState)
    (h0 : ∀ pr, 0 ≤ dev.num nm pr) (hz : setPointsInt dev nm = 0) :
    (buildSet dev tp nm st).2 = st := by
  have hports : ∀ i ∈ portRange dev.numPorts,
      dev.num nm (openName i) = 0 ∧ dev.num nm (shortName i) = 0 ∧
      dev.num nm (loadName i) = 0 ∧
      ∀ j ∈ pairRange i dev.numPorts, dev.num nm (throughName i j) = 0 := by
    intro i hi
    have hmem : ∀ x ∈ (portRange dev.numPorts).map (fun i =>
        dev.num nm (openName i) + dev.num nm (shortName i) + dev.num nm (loadName i) +
          ((pairRange i dev.numPorts).map (fun j => dev.num nm (throughName i j))).sum),
        0 ≤ x := by
      intro x hx
      obtain ⟨i', _, rfl⟩ := List.mem_map.1 hx
      have h4 : 0 ≤ ((pairRange i' dev.numPorts).map
          (fun j => dev.num nm (throughName i' j))).sum :=
        List.sum_nonneg (by
          intro y hy
          obtain ⟨j, _, rfl⟩ := List.mem_map.1 hy
          exact h0 _)
      have h1 := h0 (openName i')
      have h2 := h0 (shortName i')
      have h3 := h0 (loadName i')
      omega
    have hzero := intList_sum_zero hmem hz _ (List.mem_map_of_mem _ hi)
    have h4 : 0 ≤ ((pairRange i dev.numPorts).map
        (fun j => dev.num nm (throughName i j))).sum :=
      List.sum_nonneg (by
        intro y hy
        obtain ⟨j, _, rfl⟩ := List.mem_map.1 hy
        exact h0 _)
    have h1 := h0 (openName i)
    have h2 := h0 (shortName i)
    have h3 := h0 (loadName i)
    have hth : ((pairRange i dev.numPorts).map
        (fun j => dev.num nm (throughName i j))).sum = 0 := by omega
    refine ⟨by omega, by omega, by omega, ?_⟩
    intro j hj
    exact intList_sum_zero (by
        intro y hy
        obtain ⟨j', _, rfl⟩ := List.mem_map.1 hy
        exact h0 _) hth _ (List.mem_map_of_mem _ hj)
  exact portFold_snd_zero dev tp nm (portRange dev.numPorts) _ st hports

theorem namesFold_zero (dev : Device) (tp : Nat) :
    ∀ (names : List String) (st0 : RunState),
    (∀ nm ∈ names, setPointsInt dev nm = 0) →
    (∀ nm pr, 0 ≤ dev.num nm pr) →
    ((names.foldl (fun st name =>
        let bs := buildSet dev tp name st
        { bs.2 with
          sets := bs.2.sets ++ [bs.1]
          trace := bs.2.trace ++ [bs.2.sets ++ [bs.1]] }) st0).events = st0.events ∧
     (names.foldl (fun st name =>
        let bs := buildSet dev tp name st
        { bs.2 with
          sets := bs.2.sets ++ [bs.1]
          trace := bs.2.trace ++ [bs.2.sets ++ [bs.1]] }) st0).divByZero = st0.divByZero)
  | [], _, _, _ => ⟨rfl, rfl⟩
  | nm :: names, st0, hz, h0 => by
    simp only [List.foldl_cons]
    have hbs := buildSet_snd_zero dev tp nm st0 (h0 nm) (hz nm (by simp))
    have hrec := namesFold_zero dev tp names
      { st0 with
        sets := st0.sets ++ [(buildSet dev tp nm st0).1]
        trace := st0.trace ++ [st0.sets ++ [(buildSet dev tp nm st0).1]] }
      (fun nm' hnm' => hz nm' (by simp [hnm'])) h0
    rw [hbs]
    exact hrec

/-- C7: if every point-count response is non-negative and the pre-scanned
grand total of points is zero, the run never evaluates the percentage
quotient with a zero divisor, emits no progress notification, and proceeds
directly to the completion notification. -/
theorem zero_total_points (dev : Device) (prior : List CoefficientSet)
    (h0 : ∀ nm pr, 0 ≤ dev.num nm pr) (hz : totalPointsInt dev = 0) :
    (updateCoefficientSetsRun dev prior).divByZero = false ∧
    (updateCoefficientSetsRun dev prior).events = [Event.done] := by
  have hall : ∀ nm ∈ qSplitComma dev.coeffListResp, setPointsInt dev nm = 0 := by
    intro nm hnm
    have hnn : ∀ x ∈ (qSplitComma dev.coeffListResp).map (setPointsInt dev), 0 ≤ x := by
      intro x hx
      obtain ⟨nm', _, rfl⟩ := List.mem_map.1 hx
      exact setPointsInt_nonneg dev nm' (h0 nm')
    exact intList_sum_zero hnn hz _ (List.mem_map_of_mem _ hnm)
  unfold updateCoefficientSetsRun runThread
  by_cases hF : qStartsWith dev.coeffListResp "FACTORY"
  · simp only [hF, if_true]
    have hfold := namesFold_zero dev (totalPoints dev) (qSplitComma dev.coeffListResp)
      { readPoints := 0, lastPercentage := 0, events := [], divByZero := false,
        sets := [], trace := [prior, []] } hall h0
    exact ⟨hfold.2, congrArg (fun l => l ++ [Event.done]) hfold.1⟩
  · simp [hF]

/-- Witness for C7 at a concrete 1-port device with all counts zero. -/
theorem zero_total_points_witness :
    (updateCoefficientSetsRun zeroDev []).divByZero = false ∧
    (updateCoefficientSetsRun zeroDev []).events = [Event.done] :=
  zero_total_points zeroDev [] (fun _ _ => le_refl 0) rfl

theorem processPoint_snd (dev : Device) (tp : Nat) (sn pn : String) (i : Nat)
    (c : Coefficient) (st : RunState) :
    (processPoint dev tp sn pn i c st).2 =
      if (st.readPoints + 1) * 100 / tp ≠ st.lastPercentage then
        { st with
          readPoints := st.readPoints + 1
          divByZero := st.divByZero || decide (tp = 0)
          lastPercentage := (st.readPoints + 1) * 100 / tp
          events := st.events ++ [.progress ((st.readPoints + 1) * 100 / tp)] }
      else
        { st with
          readPoints := st.readPoints + 1
          divByZero := st.divByZero || decide (tp = 0) } := by
  by_cases hne : (st.readPoints + 1) * 100 / tp ≠ st.lastPercentage
  · rw [if_pos hne]
    simp [processPoint, hne]
  · rw [if_neg hne]
    simp [processPoint, hne]

theorem processPoint_inv (dev : Device) (tp : Nat) (sn pn : String) (i : Nat)
    (c : Coefficient) (st : RunState) (h : ProgressInv tp st) :
    ProgressInv tp (processPoint dev tp sn pn i c st).2 := by
  obtain ⟨hch, hub, hcur, hshape⟩ := h
  have hmono : st.readPoints * 100 / tp ≤ (st.readPoints + 1) * 100 / tp :=
    Nat.div_le_div_right (Nat.mul_le_mul_right _ (Nat.le_succ _))
  rw [processPoint_snd]
  by_cases hne : (st.readPoints + 1) * 100 / tp ≠ st.lastPercentage
  · have hlt : st.lastPercentage < (st.readPoints + 1) * 100 / tp := by omega
    rw [if_pos hne]
    unfold ProgressInv
    dsimp only
    rw [progressVals_append]
    have hsing : progressVals [Event.progress ((st.readPoints + 1) * 100 / tp)] =
        [(st.readPoints + 1) * 100 / tp] := rfl
    rw [hsing]
    refine ⟨?_, ?_, le_refl _, ?_⟩
    · rw [List.chain'_append]
      refine ⟨hch, List.chain'_singleton _, ?_⟩
      intro x hx y hy
      have hy' : (st.readPoints + 1) * 100 / tp = y := by simpa using hy
      have hx' := hub x (List.mem_of_mem_getLast? hx)
      omega
    · intro x hx
      rcases List.mem_append.1 hx with hx' | hx'
      · have := hub x hx'
        constructor <;> omega
      · rw [List.mem_singleton] at hx'
        subst hx'
        constructor <;> omega
    · rw [List.map_append, ← hshape]
      rfl
  · rw [if_neg hne]
    unfold ProgressInv
    dsimp only
    exact ⟨hch, hub, by omega, hshape⟩

theorem pointFold_inv (dev : Device) (tp : Nat) (sn pn : String) :
    ∀ (l : List Nat) (c : Coefficient) (st : RunState), ProgressInv tp st →
    ProgressInv tp ((l.foldl (fun cs i => processPoint dev tp sn pn i cs.1 cs.2) (c, st)).2)
  | [], _, _, h => h
  | i :: l, c, st, h => by
    simp only [List.foldl_cons]
    exact pointFold_inv dev tp sn pn l _ _ (processPoint_inv dev tp sn pn i c st h)

theorem createCoefficient_inv (dev : Device) (tp : Nat) (sn pn : String)
    (st : RunState) (h : ProgressInv tp st) :
    ProgressInv tp (createCoefficient dev tp sn pn st).2 :=
  pointFold_inv dev tp sn pn _ _ st h

theorem throughFold_inv (dev : Device) (tp : Nat) (nm : String) (i : Nat) :
    ∀ (l : List Nat) (acc : List Coefficient) (st : RunState), ProgressInv tp st →
    ProgressInv tp ((l.foldl (fun (a : List Coefficient × RunState) j =>
        let c := createCoefficient dev tp nm (throughName i j) a.2
        (a.1 ++ [c.1], c.2)) (acc, st)).2)
  | [], _, _, h => h
  | j :: l, acc, st, h => by
    simp only [List.foldl_cons]
    exact throughFold_inv dev tp nm i l _ _
      (createCoefficient_inv dev tp nm (throughName i j) st h)

theorem buildPortStep_inv (dev : Device) (tp : Nat) (nm : String)
    (cs : CoefficientSet) (st : RunState) (i : Nat) (h : ProgressInv tp st) :
    ProgressInv tp (buildPortStep dev tp nm (cs, st) i).2 := by
  unfold buildPortStep
  dsimp only
  exact throughFold_inv dev tp nm i _ _ _
    (createCoefficient_inv dev tp nm (loadName i) _
      (createCoefficient_inv dev tp nm (shortName i) _
        (createCoefficient_inv dev tp nm (openName i) _ h)))

theorem portFold_inv (dev : Device) (tp : Nat) (nm : String) :
    ∀ (l : List Nat) (cs : CoefficientSet) (st : RunState), ProgressInv tp st →
    ProgressInv tp ((l.foldl (buildPortStep dev tp nm) (cs, st)).2)
  | [], _, _, h => h
  | i :: l, cs, st, h => by
    simp only [List.foldl_cons]
    rw [show buildPortStep dev tp nm (cs, st) i =
      ((buildPortStep dev tp nm (cs, st) i).1, (buildPortStep dev tp nm (cs, st) i).2)
      from rfl]
    exact portFold_inv dev tp nm l _ _ (buildPortStep_inv dev tp nm cs st i h)

theorem buildSet_inv (dev : Device) (tp : Nat) (nm : String) (st : RunState)
    (h : ProgressInv tp st) : ProgressInv tp (buildSet dev tp nm st).2 :=
  portFold_inv dev tp nm _ _ st h

theorem namesFold_inv (dev : Device) (tp : Nat) :
    ∀ (names : List String) (st0 : RunState), ProgressInv tp st0 →
    ProgressInv tp (names.foldl (fun st name =>
        let bs := buildSet dev tp name st
        { bs.2 with
          sets := bs.2.sets ++ [bs.1]
          trace := bs.2.trace ++ [bs.2.sets ++ [bs.1]] }) st0)
  | [], _, h => h
  | nm :: names, st0, h => by
    simp only [List.foldl_cons]
    have hbs := buildSet_inv dev tp nm st0 h
    exact namesFold_inv dev tp names _ hbs

theorem progressInv_initial (tp : Nat) (prior : List CoefficientSet) :
    ProgressInv tp
      { readPoints := 0, lastPercentage := 0, events := [], divByZero := false,
        sets := [], trace := [prior, []] } := by
  refine ⟨List.chain'_nil, ?_, Nat.zero_le _, rfl⟩
  intro x hx
  simp [progressVals] at hx

theorem run_events_eq (dev : Device) (prior : List CoefficientSet)
    (hF : qStartsWith dev.coeffListResp "FACTORY" = true) :
    (updateCoefficientSetsRun dev prior).events =
      ((qSplitComma dev.coeffListResp).foldl (fun st name =>
          let bs := buildSet dev (totalPoints dev) name st
          { bs.2 with
            sets := bs.2.sets ++ [bs.1]
            trace := bs.2.trace ++ [bs.2.sets ++ [bs.1]] })
        { readPoints := 0, lastPercentage := 0, events := [], divByZero := false,
          sets := [], trace := [prior, []] }).events ++ [Event.done] := by
  unfold updateCoefficientSetsRun runThread
  simp only [hF, if_true]

/-- C4 (amended): progress is compared against a tracker initialised to 0,
so 0 itself is never emitted; the emitted percentages are strictly
increasing (hence monotonically non-decreasing and never repeated), all
events before the final completion event are progress events, and in the
concrete run with `totalPoints = 10` exactly the percentages
`10, 20, …, 100` are emitted in ascending order, each exactly once, with
completion following the last progress event. -/
theorem progress_emission (dev : Device) (prior : List CoefficientSet) :
    List.Chain' (· < ·) (progressVals (updateCoefficientSetsRun dev prior).events) ∧
    ((updateCoefficientSetsRun dev prior).events.count (Event.progress 0) = 0) ∧
    ((updateCoefficientSetsRun dev prior).events =
      (progressVals (updateCoefficientSetsRun dev prior).events).map Event.progress
        ++ [Event.done]) ∧
    totalPoints c4dev = 10 ∧
    (updateCoefficientSetsRun c4dev []).events =
      [Event.progress 10, Event.progress 20, Event.progress 30, Event.progress 40,
       Event.progress 50, Event.progress 60, Event.progress 70, Event.progress 80,
       Event.progress 90, Event.progress 100, Event.done] := by
  have hmain : List.Chain' (· < ·) (progressVals (updateCoefficientSetsRun dev prior).events) ∧
      (∀ x ∈ progressVals (updateCoefficientSetsRun dev prior).events, 0 < x) ∧
      ((updateCoefficientSetsRun dev prior).events =
        (progressVals (updateCoefficientSetsRun dev prior).events).map Event.progress
          ++ [Event.done]) := by
    by_cases hF : qStartsWith dev.coeffListResp "FACTORY"
    · have hev := run_events_eq dev prior hF
      have hinv := namesFold_inv dev (totalPoints dev) (qSplitComma dev.coeffListResp)
        { readPoints := 0, lastPercentage := 0, events := [], divByZero := false,
          sets := [], trace := [prior, []] }
        (progressInv_initial (totalPoints dev) prior)
      obtain ⟨hch, hub, _, hshape⟩ := hinv
      rw [hev]
      rw [progressVals_append, show progressVals [Event.done] = [] from rfl,
        List.append_nil]
      refine ⟨hch, fun x hx => (hub x hx).2, ?_⟩
      congr 1
    · have habort : (updateCoefficientSetsRun dev prior).events = [Event.done] := by
        unfold updateCoefficientSetsRun runThread
        simp [hF]
      rw [habort]
      refine ⟨by simp [progressVals], ?_, by simp [progressVals]⟩
      intro x hx
      simp [progressVals] at hx
  refine ⟨hmain.1, ?_, hmain.2.2, rfl, rfl⟩
  rw [hmain.2.2]
  rw [List.count_append]
  have h1 : ((progressVals (updateCoefficientSetsRun dev prior).events).map
      Event.progress).count (Event.progress 0) =
      (progressVals (updateCoefficientSetsRun dev prior).events).count 0 :=
    List.count_map_of_injective _ Event.progress
      (fun x y hxy => by cases hxy; rfl) 0
  rw [h1]
  have h2 : (progressVals (updateCoefficientSetsRun dev prior).events).count 0 = 0 := by
    rw [List.count_eq_zero]
    intro h0
    exact absurd rfl (Nat.ne_of_gt (hmain.2.1 0 h0))
  rw [h2]
  rfl

/-- Counterexample to C4 as stated: in the run with `totalPoints = 10` the
percentage 0 is never emitted (the comparison value starts at 0), so the
emitted set is `{10, …, 100}`, not `{0, 10, …, 100}`. -/
theorem progress_zero_never_emitted_counterexample :
    totalPoints c4dev = 10 ∧
    (updateCoefficientSetsRun c4dev []).events =
      [Event.progress 10, Event.progress 20, Event.progress 30, Event.progress 40,
       Event.progress 50, Event.progress 60, Event.progress 70, Event.progress 80,
       Event.progress 90, Event.progress 100, Event.done] ∧
    (updateCoefficientSetsRun c4dev []).events.count (Event.progress 0) = 0 :=
  ⟨rfl, rfl, rfl⟩
